import Mathlib

/-!
Verification of the labeled stream synchronizer (the partitionSync transducer).

The synchronizer consumes labeled values and emits synchronized tuples under
two regimes chosen at construction time: an unbounded-latest branch (most
recent value per label, emitting when all required labels are present, or
immediately when mergeOnly is set) and a bounded-FIFO branch (per-label queues
with a backpressure limit, draining matched queue fronts, raising an overflow
error when a queue is full).

Modelling conventions, mirroring the JavaScript source:
- tuples (JS objects) and the per-label cache (JS Map) are association lists
  in insertion order; assigning to an existing key overwrites in place;
- label sets (JS Set) are duplicate-free lists in insertion order;
- the required label set is passed to every call, reflecting that the source
  reads the externally owned set live on each call;
- the downstream reducer is modelled as pure accumulation of the emitted
  tuples into a list; such a reducer never signals the isReduced early
  termination, so the drain loop's break is never taken;
- the illegalState throw is modelled as a result constructor carrying the
  offending label, the configured limit, and the state at the throw.
-/

/-- Configuration options of the synchronizer with the source's defaults
mergeOnly=false, reset=true, all=true, backPressure=0.  The key extraction
function is passed separately. -/
structure PartitionSyncOpts where
  mergeOnly : Bool
  reset : Bool
  all : Bool
  backPressure : Nat
  deriving DecidableEq, Repr

/-- The source's default options. -/
def defaultOpts : PartitionSyncOpts := ⟨false, true, true, 0⟩

/-- JS Set.add on an insertion-ordered duplicate-free list. -/
def setAdd {K : Type} [DecidableEq K] (s : List K) (k : K) : List K :=
  if k ∈ s then s else s ++ [k]

/-- JS Set.delete on an insertion-ordered duplicate-free list. -/
def setDel {K : Type} [DecidableEq K] (s : List K) (k : K) : List K :=
  s.filter (fun j => decide (j ≠ k))

/-- JS object property assignment (overwrite in place, or append a new key). -/
def objSet {K T : Type} [DecidableEq K] (m : List (K × T)) (k : K) (v : T) :
    List (K × T) :=
  if m.any (fun p => decide (p.1 = k)) then
    m.map (fun p => if p.1 = k then (k, v) else p)
  else m ++ [(k, v)]

/-- requiredInputs from the source: true iff every required label is in the
current label set (with the size short-circuit of the source). -/
def requiredInputs {K : Type} [DecidableEq K] (required curr : List K) : Bool :=
  if curr.length < required.length then false
  else required.all (fun id => decide (id ∈ curr))

/-- State of the unbounded-latest branch: the current tuple, the set of labels
present in it, and the flag recording that no tuple has been emitted yet. -/
structure UState (K T : Type) where
  curr : List (K × T)
  currKeys : List K
  first : Bool
  deriving DecidableEq, Repr

/-- Fresh state of the unbounded-latest branch. -/
def initU {K T : Type} : UState K T := ⟨[], [], true⟩

/-- One ingest step of the unbounded-latest branch: store the value under its
label, then emit the current tuple iff mergeOnly is set or all required labels
are present; on emission, clear the tuple when reset is set, otherwise carry
it forward. -/
def ingestU {K T : Type} [DecidableEq K] (ks : List K) (cfg : PartitionSyncOpts)
    (key : T → K) (s : UState K T) (x : T) :
    UState K T × List (List (K × T)) :=
  let k := key x
  if k ∈ ks then
    let curr1 := objSet s.curr k x
    let keys1 := setAdd s.currKeys k
    if cfg.mergeOnly || requiredInputs ks keys1 then
      if cfg.reset then (⟨[], [], false⟩, [curr1])
      else (⟨curr1, keys1, false⟩, [curr1])
    else (⟨curr1, keys1, s.first⟩, [])
  else (s, [])

/-- Completion step of the unbounded-latest branch: flush the current tuple
iff (reset and all and some label is present) or (not reset and no tuple has
been emitted yet); in either case the state is cleared afterwards. -/
def completeU {K T : Type} (cfg : PartitionSyncOpts) (s : UState K T) :
    UState K T × List (List (K × T)) :=
  if (cfg.reset && cfg.all && decide (0 < s.currKeys.length))
      || (!cfg.reset && s.first) then
    (⟨[], [], false⟩, [s.curr])
  else (s, [])

/-- Folding ingestU over an input sequence, accumulating the emitted tuples. -/
def runU {K T : Type} [DecidableEq K] (ks : List K) (cfg : PartitionSyncOpts)
    (key : T → K) : UState K T → List T → UState K T × List (List (K × T))
  | s, [] => (s, [])
  | s, x :: xs =>
    let r1 := ingestU ks cfg key s x
    let r2 := runU ks cfg key r1.1 xs
    (r2.1, r1.2 ++ r2.2)

/-- State of the bounded-FIFO branch: the per-label queues, the set of labels
with buffered values, and the first-emission flag (written but never read in
this branch of the source). -/
structure BState (K T : Type) where
  cache : List (K × List T)
  currKeys : List K
  first : Bool
  deriving DecidableEq, Repr

/-- Fresh state of the bounded-FIFO branch. -/
def initB {K T : Type} : BState K T := ⟨[], [], true⟩

/-- JS Map.get. -/
def mapGet {K T : Type} [DecidableEq K] (c : List (K × List T)) (k : K) :
    Option (List T) :=
  (c.find? (fun p => decide (p.1 = k))).map Prod.snd

/-- JS Map.set (overwrite in place, or append a new key). -/
def mapSet {K T : Type} [DecidableEq K] (c : List (K × List T)) (k : K)
    (q : List T) : List (K × List T) :=
  if c.any (fun p => decide (p.1 = k)) then
    c.map (fun p => if p.1 = k then (k, q) else p)
  else c ++ [(k, q)]

/-- collect from the source: shift the front of every present label's queue
into a tuple, removing labels whose queue empties.  In the source every label
in currKeys has a non-empty cache slot, so the fallback branch for a missing
or empty slot is unreachable there. -/
def collect {K T : Type} [DecidableEq K] (cache : List (K × List T))
    (currKeys : List K) : List (K × List T) × List K × List (K × T) :=
  currKeys.foldl
    (fun st id =>
      match mapGet st.1 id with
      | some (v :: rest) =>
        (mapSet st.1 id rest,
         if rest.isEmpty then setDel st.2.1 id else st.2.1,
         st.2.2 ++ [(id, v)])
      | _ => (st.1, setDel st.2.1 id, st.2.2))
    (cache, currKeys, [])

/-- Total number of buffered values across all queues; an upper bound on the
number of drain iterations, used as fuel below. -/
def totalBuffered {K T : Type} (c : List (K × List T)) : Nat :=
  (c.map (fun p => p.2.length)).sum

/-- The drain loop of the bounded-FIFO branch: repeatedly collect a matched
tuple while every required label is present.  Each productive iteration
removes at least one buffered value, so the total buffered count is enough
fuel to reproduce the source's while loop exactly on reachable states. -/
def drain {K T : Type} [DecidableEq K] (ks : List K) :
    Nat → List (K × List T) → List K → List (List (K × T)) →
    List (K × List T) × List K × List (List (K × T))
  | 0, c, keys, acc => (c, keys, acc)
  | fuel + 1, c, keys, acc =>
    if requiredInputs ks keys then
      let r := collect c keys
      drain ks fuel r.1 r.2.1 (acc ++ [r.2.2])
    else (c, keys, acc)

/-- Result of a bounded-mode ingest or run: either the new state plus the
emitted tuples, or a backpressure overflow error identifying the offending
label and the configured limit, together with the state at the moment the
error is raised and the tuples emitted before it. -/
inductive BResult (K T : Type) where
  | ok (s : BState K T) (out : List (List (K × T)))
  | overflow (label : K) (limit : Nat) (s : BState K T)
      (out : List (List (K × T)))
  deriving DecidableEq, Repr

/-- One ingest step of the bounded-FIFO branch: ensure a queue exists for the
label, raise overflow when that queue is already at the limit, otherwise push
the value, mark the label present and drain all matched tuples. -/
def ingestB {K T : Type} [DecidableEq K] (ks : List K) (bp : Nat) (key : T → K)
    (s : BState K T) (x : T) : BResult K T :=
  let k := key x
  if k ∈ ks then
    let slot := (mapGet s.cache k).getD []
    let cache1 := if (mapGet s.cache k).isSome then s.cache else mapSet s.cache k []
    if bp ≤ slot.length then
      .overflow k bp ⟨cache1, s.currKeys, s.first⟩ []
    else
      let cache2 := mapSet cache1 k (slot ++ [x])
      let keys2 := setAdd s.currKeys k
      let r := drain ks (totalBuffered cache2) cache2 keys2 []
      .ok ⟨r.1, r.2.1, s.first && r.2.2.isEmpty⟩ r.2.2
  else .ok s []

/-- Completion step of the bounded-FIFO branch: when all is set and some label
is present, flush one (possibly partial) collected tuple and clear the
present-label set. -/
def completeB {K T : Type} [DecidableEq K] (cfg : PartitionSyncOpts)
    (s : BState K T) : BState K T × List (List (K × T)) :=
  if cfg.all && decide (0 < s.currKeys.length) then
    let r := collect s.cache s.currKeys
    (⟨r.1, [], s.first⟩, [r.2.2])
  else (s, [])

/-- Folding ingestB over an input sequence, stopping at the first overflow. -/
def runB {K T : Type} [DecidableEq K] (ks : List K) (bp : Nat) (key : T → K) :
    BState K T → List T → BResult K T
  | s, [] => .ok s []
  | s, x :: xs =>
    match ingestB ks bp key s x with
    | .overflow k l s1 out1 => .overflow k l s1 out1
    | .ok s1 out1 =>
      match runB ks bp key s1 xs with
      | .overflow k l s2 out2 => .overflow k l s2 (out1 ++ out2)
      | .ok s2 out2 => .ok s2 (out1 ++ out2)

/-- Branch selection of the source: the unbounded-latest branch is used when
mergeOnly is set or backPressure is below 1. -/
def usesUnbounded (cfg : PartitionSyncOpts) : Bool :=
  cfg.mergeOnly || decide (cfg.backPressure < 1)

/-- State of a synchronizer instance, in whichever branch it was built. -/
inductive PSState (K T : Type) where
  | ub (s : UState K T)
  | bd (s : BState K T)
  deriving DecidableEq, Repr

/-- Result of running a synchronizer instance over an input sequence. -/
inductive PSResult (K T : Type) where
  | ok (s : PSState K T) (out : List (List (K × T)))
  | overflow (label : K) (limit : Nat) (s : BState K T)
      (out : List (List (K × T)))
  deriving DecidableEq, Repr

/-- Embedding of a bounded-branch result into the common result type. -/
def psResultOfB {K T : Type} : BResult K T → PSResult K T
  | .ok s out => .ok (.bd s) out
  | .overflow k l s out => .overflow k l s out

/-- Running a fresh synchronizer on an input sequence, dispatching between the
two branches exactly as the source does. -/
def psRun {K T : Type} [DecidableEq K] (cfg : PartitionSyncOpts) (ks : List K)
    (key : T → K) (xs : List T) : PSResult K T :=
  if usesUnbounded cfg then
    let r := runU ks cfg key initU xs
    .ok (.ub r.1) r.2
  else psResultOfB (runB ks cfg.backPressure key initB xs)

/-- Completion step of a synchronizer instance. -/
def psComplete {K T : Type} [DecidableEq K] (cfg : PartitionSyncOpts) :
    PSState K T → PSState K T × List (List (K × T))
  | .ub s => let r := completeU cfg s; (.ub r.1, r.2)
  | .bd s => let r := completeB cfg s; (.bd r.1, r.2)

/-- Full lifecycle: run all ingests, then complete once; returns the tuples
emitted during the ingest phase and those emitted by the completion flush, or
none when a backpressure overflow aborts the run. -/
def runThenComplete {K T : Type} [DecidableEq K] (cfg : PartitionSyncOpts)
    (ks : List K) (key : T → K) (xs : List T) :
    Option (List (List (K × T)) × List (List (K × T))) :=
  match psRun cfg ks key xs with
  | .ok s out => some (out, (psComplete cfg s).2)
  | .overflow _ _ _ _ => none

/-- The exceptional completion flush of the unbounded branch: even when all is
false, the completion step still flushes when reset is false and no tuple has
been emitted yet.  This predicate captures exactly that exception. -/
def pendingFirstFlush {K T : Type} (cfg : PartitionSyncOpts) :
    PSState K T → Bool
  | .ub u => !cfg.reset && u.first
  | .bd _ => false

/-- True iff the label of every input lies outside the required label set. -/
def allOutside {K T : Type} [DecidableEq K] (ks : List K) (key : T → K)
    (xs : List T) : Bool :=
  xs.all fun x => !decide (key x ∈ ks)

/-- True iff every key of the tuple lies in the given label set. -/
def keysWithin {K T : Type} [DecidableEq K] (ks : List K) (m : List (K × T)) :
    Bool :=
  (m.map Prod.fst).all fun j => decide (j ∈ ks)

/-- The example input sequence of the source documentation: each value is a
label-number pair and the label is the first component. -/
def src : List (String × Nat) :=
  [("a", 1), ("a", 2), ("d", 100), ("b", 10), ("b", 11), ("c", 0), ("a", 3)]

/-- C1: in unbounded-latest mode with the default configuration, required
labels a and b, and input a1,a2,d,b1,b2,c,a3, the run emits exactly the two
tuples mapping a to a2 and b to b1, then b to b2 and a to a3 (association
lists in insertion order denote the tuples), and the final completion emits
nothing because no label is present after the last emission. -/
theorem c1_unbounded_default_run :
    runThenComplete defaultOpts ["a", "b"] Prod.fst src =
      some ([[("a", ("a", 2)), ("b", ("b", 10))],
             [("b", ("b", 11)), ("a", ("a", 3))]], []) := by
  rfl

/-- C6: in unbounded-latest mode with reset disabled, the same input emits
three tuples: a2 with b1, then a2 with b2, then a3 with b2 — after the first
full tuple each qualifying input immediately produces a new tuple retaining
the other label's previous value — and the final completion emits nothing. -/
theorem c6_unbounded_no_reset_run :
    runThenComplete ⟨false, false, true, 0⟩ ["a", "b"] Prod.fst src =
      some ([[("a", ("a", 2)), ("b", ("b", 10))],
             [("a", ("a", 2)), ("b", ("b", 11))],
             [("a", ("a", 3)), ("b", ("b", 11))]], []) := by
  rfl

/-- C2: in bounded-FIFO mode with backPressure 1 and required labels a and b,
ingesting two a-labeled values before any b-labeled value raises the overflow
error at the second ingest; the error identifies label a and limit 1, is
returned synchronously as the run's result, and no tuple was emitted. -/
theorem c2_backpressure_overflow :
    psRun ⟨false, true, true, 1⟩ ["a", "b"] Prod.fst [("a", 1), ("a", 2)] =
      .overflow "a" 1 ⟨[("a", [("a", 1)])], ["a"], true⟩ [] := by
  rfl

/-- C3: in bounded-FIFO mode with backPressure 2 and required labels a and b,
after queueing a1 and a2, the single ingest of b1 emits exactly the tuple
pairing a1 with b1 and leaves a2 queued for label a; the subsequent ingest of
b2 then emits exactly the tuple pairing a2 with b2. -/
theorem c3_fifo_pairing :
    runB ["a", "b"] 2 Prod.fst initB [("a", 1), ("a", 2), ("b", 10)] =
      .ok ⟨[("a", [("a", 2)]), ("b", [])], ["a"], false⟩
        [[("a", ("a", 1)), ("b", ("b", 10))]]
    ∧ ingestB ["a", "b"] 2 Prod.fst
        ⟨[("a", [("a", 2)]), ("b", [])], ["a"], false⟩ ("b", 11) =
      .ok ⟨[("a", []), ("b", [])], [], false⟩
        [[("a", ("a", 2)), ("b", ("b", 11))]] := by
  exact ⟨rfl, rfl⟩

/-- C8: in both branches a second completion call emits nothing: whenever the
first completion flushed, it also cleared the present-label set (and the
first-emission flag in the unbounded branch), so the flush condition cannot
hold again. -/
theorem c8_complete_idempotent {K T : Type} [DecidableEq K]
    (cfg : PartitionSyncOpts) (s : PSState K T) :
    (psComplete cfg (psComplete cfg s).1).2 = [] := by
  cases s with
  | ub u =>
    by_cases h : ((cfg.reset && cfg.all && decide (0 < u.currKeys.length))
        || (!cfg.reset && u.first)) = true
    · simp [psComplete, completeU, h]
    · simp [psComplete, completeU, h]
  | bd b =>
    by_cases h : (cfg.all && decide (0 < b.currKeys.length)) = true
    · simp [psComplete, completeB, h]
    · simp [psComplete, completeB, h]

/-- C10: when a bounded-mode ingest raises the backpressure overflow (with the
limit at least 1, as it is whenever this branch is active), the state carried
by the error is exactly the state before the call — the overflowing value was
not pushed, no queue was modified, the present-label set is unchanged — the
reported limit is the configured one, and no tuple was emitted by the call. -/
theorem c10_overflow_preserves_state {K T : Type} [DecidableEq K] (ks : List K)
    (bp : Nat) (key : T → K) (s : BState K T) (x : T) (k : K) (l : Nat)
    (s1 : BState K T) (out1 : List (List (K × T))) (hbp : 1 ≤ bp)
    (h : ingestB ks bp key s x = .overflow k l s1 out1) :
    s1 = s ∧ l = bp ∧ out1 = [] := by
  unfold ingestB at h
  by_cases hk : key x ∈ ks
  · rw [if_pos hk] at h
    cases hm : mapGet s.cache (key x) with
    | none =>
      simp only [hm, Option.getD_none, Option.isSome_none, List.length_nil,
        Bool.false_eq_true, if_false] at h
      have hnle : ¬ bp ≤ 0 := by omega
      rw [if_neg hnle] at h
      simp at h
    | some q =>
      simp only [hm, Option.getD_some, Option.isSome_some, if_true] at h
      by_cases hl : bp ≤ q.length
      · rw [if_pos hl] at h
        simp only [BResult.overflow.injEq] at h
        exact ⟨h.2.2.1.symm, h.2.1.symm, h.2.2.2.symm⟩
      · rw [if_neg hl] at h
        simp at h
  · rw [if_neg hk] at h
    simp at h

/-- Witness for c10: at backPressure 1 with the queue for label a already
holding one value, the overflowing ingest leaves the state untouched. -/
theorem c10_witness :
    1 ≤ 1 ∧ ((⟨[("a", ["v"])], ["a"], true⟩ : BState String String)
        = ⟨[("a", ["v"])], ["a"], true⟩ ∧ 1 = 1
        ∧ ([] : List (List (String × String))) = []) :=
  ⟨Nat.le_refl 1,
   c10_overflow_preserves_state ["a"] 1 (fun _ => "a")
     ⟨[("a", ["v"])], ["a"], true⟩ "w" "a" 1 ⟨[("a", ["v"])], ["a"], true⟩ []
     (Nat.le_refl 1) rfl⟩

/-- C4 counterexample: with mergeOnly set and backPressure 1 the source takes
the merge-only (unbounded) branch — two a-labeled inputs yield two singleton
tuples and no error — whereas the bounded-FIFO treatment of the same input
raises the overflow error; so the synchronizer does not operate in
bounded-FIFO mode regardless of mergeOnly. -/
theorem c4_counterexample :
    psRun ⟨true, true, true, 1⟩ ["a", "b"] Prod.fst [("a", 1), ("a", 2)] =
      .ok (.ub ⟨[], [], false⟩) [[("a", ("a", 1))], [("a", ("a", 2))]]
    ∧ runB ["a", "b"] 1 Prod.fst initB [("a", 1), ("a", 2)] =
      .overflow "a" 1 ⟨[("a", [("a", 1)])], ["a"], true⟩ [] :=
  ⟨rfl, rfl⟩

/-- C4 amended: the bounded-FIFO branch is active exactly when backPressure is
at least 1 and mergeOnly is false; the run then agrees with the bounded-FIFO
run from the fresh state.  When mergeOnly is set, the unbounded branch is
taken even with backPressure at least 1. -/
theorem c4_amended {K T : Type} [DecidableEq K] (cfg : PartitionSyncOpts)
    (ks : List K) (key : T → K) (xs : List T) (h1 : 1 ≤ cfg.backPressure)
    (h2 : cfg.mergeOnly = false) :
    psRun cfg ks key xs = psResultOfB (runB ks cfg.backPressure key initB xs) := by
  have hu : usesUnbounded cfg = false := by
    simp [usesUnbounded, h2]
    omega
  simp [psRun, hu]

/-- Witness for c4: with mergeOnly false and backPressure 1 the run equals the
bounded-FIFO run. -/
theorem c4_witness :
    1 ≤ (⟨false, true, true, 1⟩ : PartitionSyncOpts).backPressure
    ∧ (⟨false, true, true, 1⟩ : PartitionSyncOpts).mergeOnly = false
    ∧ psRun ⟨false, true, true, 1⟩ ["a"] Prod.fst [(("a" : String), (1 : Nat))] =
        psResultOfB (runB ["a"] 1 Prod.fst initB [("a", 1)]) :=
  ⟨Nat.le_refl 1, rfl,
   c4_amended ⟨false, true, true, 1⟩ ["a"] Prod.fst [("a", 1)] (Nat.le_refl 1) rfl⟩

/-- C5 counterexample: with all=false but reset=false in the unbounded branch,
after one a-labeled input (required labels a and b, so no tuple was emitted),
the completion step flushes the partial tuple holding only a — contradicting
the claim that all=false suppresses every trailing tuple. -/
theorem c5_counterexample :
    (⟨false, false, false, 0⟩ : PartitionSyncOpts).all = false
    ∧ runThenComplete ⟨false, false, false, 0⟩ ["a", "b"] Prod.fst [("a", 1)] =
        some ([], [[("a", ("a", 1))]]) :=
  ⟨rfl, rfl⟩

/-- C5 amended: with all=false the completion step emits nothing, except in
the unbounded branch when reset is false and no tuple has been emitted yet
(the first-emission flag still set), where it flushes the current possibly
partial tuple; pendingFirstFlush captures exactly that exception. -/
theorem c5_amended {K T : Type} [DecidableEq K] (cfg : PartitionSyncOpts)
    (s : PSState K T) (h : cfg.all = false) :
    (psComplete cfg s).2 = [] ↔ pendingFirstFlush cfg s = false := by
  cases s with
  | ub u =>
    by_cases hc : (!cfg.reset && u.first) = true
    · simp [psComplete, completeU, pendingFirstFlush, h, hc]
    · simp [psComplete, completeU, pendingFirstFlush, h, hc]
  | bd b =>
    simp [psComplete, completeB, pendingFirstFlush, h]

/-- Witness for c5: a fresh bounded-branch state under all=false. -/
theorem c5_witness :
    (⟨false, true, false, 1⟩ : PartitionSyncOpts).all = false
    ∧ ((psComplete ⟨false, true, false, 1⟩
          (PSState.bd (initB : BState String Nat))).2 = []
        ↔ pendingFirstFlush ⟨false, true, false, 1⟩
            (PSState.bd (initB : BState String Nat)) = false) :=
  ⟨rfl, c5_amended ⟨false, true, false, 1⟩ (PSState.bd initB) rfl⟩

/-- An ingest whose label is outside the required set is a no-op in the
unbounded branch. -/
theorem ingestU_skip {K T : Type} [DecidableEq K] (ks : List K)
    (cfg : PartitionSyncOpts) (key : T → K) (s : UState K T) (x : T)
    (h : key x ∉ ks) : ingestU ks cfg key s x = (s, []) := by
  simp [ingestU, h]

/-- A run whose labels all lie outside the required set leaves the unbounded
state unchanged and emits nothing. -/
theorem runU_skip {K T : Type} [DecidableEq K] (ks : List K)
    (cfg : PartitionSyncOpts) (key : T → K) (xs : List T) (s : UState K T)
    (h : ∀ x ∈ xs, key x ∉ ks) : runU ks cfg key s xs = (s, []) := by
  induction xs with
  | nil => rfl
  | cons x xs ih =>
    simp [runU, ingestU_skip ks cfg key s x (h x (List.mem_cons_self x xs)),
      ih (fun y hy => h y (List.mem_cons_of_mem x hy))]

/-- An ingest whose label is outside the required set is a no-op in the
bounded branch. -/
theorem ingestB_skip {K T : Type} [DecidableEq K] (ks : List K) (bp : Nat)
    (key : T → K) (s : BState K T) (x : T) (h : key x ∉ ks) :
    ingestB ks bp key s x = .ok s [] := by
  simp [ingestB, h]

/-- A run whose labels all lie outside the required set leaves the bounded
state unchanged and emits nothing. -/
theorem runB_skip {K T : Type} [DecidableEq K] (ks : List K) (bp : Nat)
    (key : T → K) (xs : List T) (s : BState K T)
    (h : ∀ x ∈ xs, key x ∉ ks) : runB ks bp key s xs = .ok s [] := by
  induction xs with
  | nil => rfl
  | cons x xs ih =>
    simp [runB, ingestB_skip ks bp key s x (h x (List.mem_cons_self x xs)),
      ih (fun y hy => h y (List.mem_cons_of_mem x hy))]

/-- C7 counterexample: with reset=false in the unbounded branch and a single
input whose label c is outside the required set containing only a, no tuple is
emitted during the run, but the completion step emits one empty tuple — the
run is not a pure no-op for every configuration. -/
theorem c7_counterexample :
    allOutside ["a"] Prod.fst [(("c", 0) : String × Nat)] = true
    ∧ runThenComplete ⟨false, false, true, 0⟩ ["a"] Prod.fst [("c", 0)] =
        some ([], [[]]) :=
  ⟨rfl, rfl⟩

/-- C7 amended: when every input label lies outside the required set, no tuple
is emitted during any ingest, and the completion step also emits nothing,
except in the unbounded branch with reset=false where it emits exactly one
empty tuple. -/
theorem c7_amended {K T : Type} [DecidableEq K] (cfg : PartitionSyncOpts)
    (ks : List K) (key : T → K) (xs : List T)
    (h : allOutside ks key xs = true) :
    runThenComplete cfg ks key xs =
      some ([], if usesUnbounded cfg && !cfg.reset then [[]] else []) := by
  have h2 : ∀ x ∈ xs, key x ∉ ks := by
    simpa [allOutside, List.all_eq_true] using h
  by_cases hu : usesUnbounded cfg = true
  · simp only [runThenComplete, psRun, hu, if_true,
      runU_skip ks cfg key xs initU h2]
    by_cases hr : cfg.reset = true <;> simp [psComplete, completeU, initU, hr]
  · simp only [Bool.not_eq_true] at hu
    simp only [runThenComplete, psRun, hu, Bool.false_eq_true, if_false,
      runB_skip ks cfg.backPressure key xs initB h2, psResultOfB]
    simp [psComplete, completeB, initB, hu]

/-- Witness for c7: a single out-of-set input under the default options. -/
theorem c7_witness :
    allOutside ["a"] Prod.fst [(("c", 0) : String × Nat)] = true
    ∧ runThenComplete defaultOpts ["a"] Prod.fst [("c", 0)] =
        some ([], if usesUnbounded defaultOpts && !defaultOpts.reset
          then [[]] else []) :=
  ⟨rfl, c7_amended defaultOpts ["a"] Prod.fst [("c", 0)] rfl⟩

/-- Object assignment adds at most the assigned key to the key set. -/
theorem objSet_keys {K T : Type} [DecidableEq K] (m : List (K × T)) (k : K)
    (v : T) (j : K) (hj : j ∈ (objSet m k v).map Prod.fst) :
    j ∈ m.map Prod.fst ∨ j = k := by
  unfold objSet at hj
  split at hj
  · left
    obtain ⟨q, hq, hqj⟩ := List.mem_map.mp hj
    obtain ⟨p, hp, hpq⟩ := List.mem_map.mp hq
    subst hpq
    by_cases hpk : p.1 = k
    · simp only [if_pos hpk] at hqj
      exact List.mem_map.mpr ⟨p, hp, hpk.trans hqj⟩
    · rw [if_neg hpk] at hqj
      exact List.mem_map.mpr ⟨p, hp, hqj⟩
  · rw [List.map_append] at hj
    rcases List.mem_append.mp hj with h1 | h2
    · exact Or.inl h1
    · simp at h2
      exact Or.inr h2

/-- The current tuple after an unbounded ingest is empty, unchanged, or the
previous tuple with the ingested label (a member of the required set)
assigned. -/
theorem ingestU_curr_cases {K T : Type} [DecidableEq K] (ks : List K)
    (cfg : PartitionSyncOpts) (key : T → K) (s : UState K T) (x : T) :
    (ingestU ks cfg key s x).1.curr = []
    ∨ (ingestU ks cfg key s x).1.curr = s.curr
    ∨ (key x ∈ ks ∧ (ingestU ks cfg key s x).1.curr = objSet s.curr (key x) x) := by
  simp only [ingestU]
  split
  · next hk =>
    split
    · split
      · exact Or.inl rfl
      · exact Or.inr (Or.inr ⟨hk, rfl⟩)
    · exact Or.inr (Or.inr ⟨hk, rfl⟩)
  · exact Or.inr (Or.inl rfl)

/-- The current tuple after an unbounded completion is empty or unchanged. -/
theorem completeU_curr_cases {K T : Type} (cfg : PartitionSyncOpts)
    (s : UState K T) :
    (completeU cfg s).1.curr = [] ∨ (completeU cfg s).1.curr = s.curr := by
  unfold completeU
  split
  · exact Or.inl rfl
  · exact Or.inr rfl

/-- One unbounded ingest preserves containment of the tuple keys in the
required label set (read live at that call). -/
theorem ingestU_keys_subset {K T : Type} [DecidableEq K] (ks : List K)
    (cfg : PartitionSyncOpts) (key : T → K) (s : UState K T) (x : T)
    (hs : ∀ j ∈ s.curr.map Prod.fst, j ∈ ks) :
    ∀ j ∈ (ingestU ks cfg key s x).1.curr.map Prod.fst, j ∈ ks := by
  intro j hj
  rcases ingestU_curr_cases ks cfg key s x with h | h | ⟨hk, h⟩
  · rw [h] at hj
    simp at hj
  · rw [h] at hj
    exact hs j hj
  · rw [h] at hj
    rcases objSet_keys s.curr (key x) x j hj with h1 | h2
    · exact hs j h1
    · exact h2 ▸ hk

/-- A whole unbounded run under a constant required label set preserves
containment of the tuple keys in that set. -/
theorem runU_keys_subset {K T : Type} [DecidableEq K] (ks : List K)
    (cfg : PartitionSyncOpts) (key : T → K) (xs : List T) (s : UState K T)
    (hs : ∀ j ∈ s.curr.map Prod.fst, j ∈ ks) :
    ∀ j ∈ (runU ks cfg key s xs).1.curr.map Prod.fst, j ∈ ks := by
  induction xs generalizing s with
  | nil => simpa [runU] using hs
  | cons x xs ih =>
    simpa [runU] using
      ih (ingestU ks cfg key s x).1 (ingestU_keys_subset ks cfg key s x hs)

/-- C9 amended: under a constant required label set the keys of the unbounded
branch's current tuple are contained in the set after any ingest sequence from
the fresh state and after the subsequent completion.  When labels are removed
from the externally owned set between calls, previously stored keys remain in
the current tuple and the containment can fail (see the counterexample). -/
theorem c9_amended {K T : Type} [DecidableEq K] (cfg : PartitionSyncOpts)
    (ks : List K) (key : T → K) (xs : List T) :
    keysWithin ks (runU ks cfg key initU xs).1.curr = true
    ∧ keysWithin ks (completeU cfg (runU ks cfg key initU xs).1).1.curr = true := by
  have h1 := runU_keys_subset ks cfg key xs initU (by simp [initU])
  constructor
  · simp only [keysWithin, List.all_eq_true, decide_eq_true_eq]
    intro j hj
    exact h1 j (by simpa using hj)
  · simp only [keysWithin, List.all_eq_true, decide_eq_true_eq]
    intro j hj
    have hj2 : j ∈ (completeU cfg (runU ks cfg key initU xs).1).1.curr.map Prod.fst := by
      simpa using hj
    rcases completeU_curr_cases cfg (runU ks cfg key initU xs).1 with h | h
    · rw [h] at hj2
      simp at hj2
    · rw [h] at hj2
      exact h1 j hj2

/-- C9 counterexample: ingest an a-labeled value while the live label set is
a,b; then the set is externally mutated to contain only b and an out-of-set
value is ingested (a no-op).  The current tuple still holds key a, which is
not in the live label set, so the invariant does not survive external removal
of labels. -/
theorem c9_counterexample :
    keysWithin ["b"]
      ((ingestU ["b"] defaultOpts Prod.fst
        ((ingestU ["a", "b"] defaultOpts Prod.fst
          (initU : UState String (String × Nat)) ("a", 1)).1) ("z", 0)).1).curr
      = false := by
  decide
